import Mathlib

/-!
Shallow embedding of the core of the leaktk scanner (Go) and proofs about it.

The embedding covers:
* the request/response protocol types and the `Request.UnmarshalJSON` decoder
  (`pkg/proto`);
* the finding-to-result mapping and the worker dispatch loop of the scanner
  (`pkg/scanner`), with external effects (pattern load, clone, detector run,
  context state) passed in as explicit inputs;
* the gitleaks pattern cache `Patterns.Gitleaks` (`pkg/scanner/patterns.go`)
  as a pure state-transition function over an explicit file/memory state;
* `ParseConfig`/`validate` (`pkg/scanner/gitleaks/config.go`) with the
  panic-recovery discipline made explicit;
* the clone/scan depth policy and the git argument construction;
* the bounded priority queue (`pkg/queue/priorityqueue.go`), with the heap
  (whose source file is not part of the excerpt) modelled from the spec and
  the concurrency of `Send` modelled as an explicit interleaving system.

Go `int` is modelled as `Int`, Go strings as `String`, Go maps with string
keys as association lists, and fallible operations as `Option`/`Except`.
-/

namespace Leaktk

/-! ## pkg/proto: protocol types and codec -/

/-- Go `proto.ScanResultsResponseKind`. -/
def ScanResultsResponseKind : String := "ScanResults"

/-- Go `proto.RequestKind`: enum for setting Kind on a request. -/
inductive RequestKind where
  | ContainerImageRequestKind
  | FilesRequestKind
  | GitRepoRequestKind
  | JSONDataRequestKind
  | TextRequestKind
  | URLRequestKind
deriving DecidableEq, Repr

/-- The numeric value of the Go `iota` constant behind each kind. -/
def RequestKind.index : RequestKind → Nat
  | .ContainerImageRequestKind => 0
  | .FilesRequestKind => 1
  | .GitRepoRequestKind => 2
  | .JSONDataRequestKind => 3
  | .TextRequestKind => 4
  | .URLRequestKind => 5

/-- Go `proto.requestKindNames`. -/
def requestKindNames : List String :=
  ["ContainerImage", "Files", "GitRepo", "JSONData", "Text", "URL"]

/-- Go `RequestKind.String()`: index into `requestKindNames`, `""` out of range. -/
def RequestKind.string (k : RequestKind) : String :=
  requestKindNames.getD k.index ""

/-- Go `proto.requestKindNameMap` as a lookup function. -/
def requestKindFromName (s : String) : Option RequestKind :=
  if s = "ContainerImage" then some .ContainerImageRequestKind
  else if s = "Files" then some .FilesRequestKind
  else if s = "GitRepo" then some .GitRepoRequestKind
  else if s = "JSONData" then some .JSONDataRequestKind
  else if s = "Text" then some .TextRequestKind
  else if s = "URL" then some .URLRequestKind
  else none

/-- Go `proto.Opts`: options for the different scan types. -/
structure Opts where
  Arch : String := ""
  Branch : String := ""
  Depth : Int := 0
  Exclusions : List String := []
  FetchURLs : String := ""
  Local : Bool := false
  Priority : Int := 0
  Proxy : String := ""
  Since : String := ""
  Staged : Bool := false
  Unstaged : Bool := false
deriving DecidableEq, Repr

/-- Go `proto.Request`. -/
structure Request where
  ID : String := ""
  Kind : RequestKind := .ContainerImageRequestKind
  Resource : String := ""
  Opts : Opts := {}
deriving DecidableEq, Repr

/-- The anonymous `tmp` struct that `Request.UnmarshalJSON` decodes into:
the raw JSON fields before the kind label is resolved. -/
structure RawRequest where
  ID : String := ""
  Kind : String := ""
  Resource : String := ""
  Opts : Opts := {}
deriving DecidableEq, Repr

/-- Go `Request.UnmarshalJSON`. The input is `none` when the JSON itself fails
to unmarshal into the `tmp` struct, `some tmp` otherwise. The result pairs
the receiver after the call with the returned error (as a message). On any
error the receiver is left unmodified. -/
def Request.unmarshalJSON (r : Request) (data : Option RawRequest) :
    Request × Option String :=
  match data with
  | none => (r, some "could not unmarshal request")
  | some tmp =>
    match requestKindFromName tmp.Kind with
    | some kind => ({ ID := tmp.ID, Kind := kind, Resource := tmp.Resource, Opts := tmp.Opts }, none)
    | none => (r, some ("unsupported request kind: kind=" ++ tmp.Kind))

/-- Go `proto.Error`: returned in the response if the scan failed.
`Data` (an `any` echoing the request back) is not modelled. -/
structure PError where
  Code : Int := 0
  Message : String := ""
deriving DecidableEq, Repr

/-- Result kind constants from `pkg/proto`. Note that the Go source spells
the metadata constant `ContainerMetdataResultKind = "ContainerMetdata"`. -/
def GenericResultKind : String := "Generic"

/-- Go `proto.ContainerLayerResultKind`. -/
def ContainerLayerResultKind : String := "ContainerLayer"

/-- Go `proto.ContainerMetdataResultKind` (spelling as in the source). -/
def ContainerMetdataResultKind : String := "ContainerMetdata"

/-- Go `proto.GitCommitResultKind`. -/
def GitCommitResultKind : String := "GitCommit"

/-- Go `proto.Rule`. -/
structure Rule where
  ID : String := ""
  Description : String := ""
  Tags : List String := []
deriving DecidableEq, Repr

/-- Go `proto.Contact`. -/
structure Contact where
  Name : String := ""
  Email : String := ""
deriving DecidableEq, Repr

/-- Go `proto.Point`. -/
structure Point where
  Line : Int := 0
  Column : Int := 0
deriving DecidableEq, Repr

/-- Go `proto.Location`. -/
structure Location where
  Version : String := ""
  Path : String := ""
  Start : Point := {}
  End : Point := {}
deriving DecidableEq, Repr

/-- Go `proto.Result`. `Notes` (a Go `map[string]string`) is modelled as an
association list; `Entropy` (a `float32` never inspected by the code under
study, only copied) is modelled as an opaque pass-through string of no
semantic content and omitted. -/
structure Result where
  ID : String := ""
  Kind : String := ""
  Secret : String := ""
  Match : String := ""
  Context : String := ""
  Date : String := ""
  Rule : Rule := {}
  Contact : Contact := {}
  Location : Location := {}
  Notes : List (String × String) := []
deriving DecidableEq, Repr

/-- Go `proto.Response`. -/
structure Response where
  ID : String := ""
  Kind : String := ""
  RequestID : String := ""
  Results : List Result := []
  Error : Option PError := none
deriving DecidableEq, Repr

/-- Assignment to a Go `map[string]string`: replace the binding if the key
is present, append it otherwise. -/
def mapSet : List (String × String) → String → String → List (String × String)
  | [], k, v => [(k, v)]
  | (k', v') :: rest, k, v =>
    if k' = k then (k, v) :: rest else (k', v') :: mapSet rest k v

/-- Lookup in a Go `map[string]string`. -/
def mapGet : List (String × String) → String → Option String
  | [], _ => none
  | (k', v') :: rest, k => if k' = k then some v' else mapGet rest k

/-! ## report.Finding (gitleaks detector output, external interface) -/

/-- Go `report.Finding`, the detector's record for one finding (only the fields
read by `findingToResult`; `Entropy float32` is pass-through only and
omitted). -/
structure Finding where
  Commit : String := ""
  File : String := ""
  Secret : String := ""
  Match : String := ""
  Line : String := ""
  StartLine : Int := 0
  StartColumn : Int := 0
  EndLine : Int := 0
  EndColumn : Int := 0
  RuleID : String := ""
  Description : String := ""
  Tags : List String := []
  Author : String := ""
  Email : String := ""
  Date : String := ""
  Fingerprint : String := ""
  Message : String := ""
deriving DecidableEq, Repr

/-- Go `strconv.Itoa`. -/
def goItoa (n : Int) : String := toString n

/-- Modelled from the spec: `id.ID(parts...)` is "a deterministic hash of
{resource, commit/version, file, span, rule}". The `pkg/id` implementation
is not part of the source excerpt; only determinism matters here, so the
hash is modelled as an injective encoding of the parts. -/
def idID (parts : List String) : String := String.intercalate "\n" parts

/-- Whether the first character list is an initial segment of the second. -/
def leadsWith : List Char → List Char → Bool
  | [], _ => true
  | _ :: _, [] => false
  | a :: as, b :: bs => a == b && leadsWith as bs

/-- Go `strings.Contains` over character lists: the pattern occurs at some
position of the text. -/
def containsSeq (sub : List Char) : List Char → Bool
  | [] => leadsWith sub []
  | c :: rest => leadsWith sub (c :: rest) || containsSeq sub rest

/-- Go `strings.Contains s sub`. -/
def goContains (s sub : String) : Bool := containsSeq sub.data s.data

/-- Worker for `goSplit`: scan the text left to right, cutting at each
leftmost non-overlapping occurrence of the (nonempty) separator. The fuel
starts at the text length and bounds the number of scan steps; each step
consumes at least one character, so the fuel never runs out before the
text does. -/
def goSplitAux (sep : List Char) : Nat → List Char → List Char → List (List Char)
  | _, current, [] => [current.reverse]
  | 0, current, _ => [current.reverse]
  | fuel + 1, current, c :: rest =>
    if sep ≠ [] && leadsWith sep (c :: rest) then
      current.reverse :: goSplitAux sep fuel [] (List.drop (sep.length - 1) rest)
    else
      goSplitAux sep fuel (c :: current) rest

/-- Go `strings.Split s sep` for a nonempty `sep`: the substrings of `s`
between the non-overlapping occurrences of `sep`, leftmost first
(`strings.Split("", sep) = [""]`). The empty-separator behaviour of Go
(splitting after every rune) is not needed by the embedded code paths. -/
def goSplit (s sep : String) : List String :=
  (goSplitAux sep.data s.data.length [] s.data).map (fun cs => String.mk cs)

/-- Go `findingToResult` from `pkg/scanner`: maps a detector finding to a
protocol result, enriching `Notes` and `Kind` per request kind. The
`ContainerImage` branch is ported statement by statement: in the source, when
the path splits on `/` into more than one part, `result.Kind` is first set to
`ContainerLayerResultKind` inside the `layers/` branch and then
unconditionally reassigned to `ContainerMetdataResultKind` afterwards. -/
def findingToResult (request : Request) (finding : Finding) : Result :=
  let result : Result := {
    ID := idID [request.Resource, finding.Commit, finding.File,
      goItoa finding.StartLine, goItoa finding.StartColumn,
      goItoa finding.EndLine, goItoa finding.EndColumn, finding.RuleID]
    Secret := finding.Secret
    Match := finding.Match
    Context := finding.Line
    Date := finding.Date
    Notes := []
    Contact := { Name := finding.Author, Email := finding.Email }
    Rule := { ID := finding.RuleID, Description := finding.Description, Tags := finding.Tags }
    Location := {
      Version := finding.Commit
      Path := finding.File
      Start := { Line := finding.StartLine, Column := finding.StartColumn }
      End := { Line := finding.EndLine, Column := finding.EndColumn } } }
  match request.Kind with
  | .GitRepoRequestKind =>
    let result := { result with Notes := mapSet result.Notes "gitleaks_fingerprint" finding.Fingerprint }
    let result := { result with Notes := mapSet result.Notes "commit_message" finding.Message }
    let result := { result with Notes := mapSet result.Notes "repository" request.Resource }
    { result with Kind := GitCommitResultKind }
  | .ContainerImageRequestKind =>
    -- manifest := ""; parts := strings.Split(result.Location.Path, "/")
    let parts := goSplit result.Location.Path "/"
    if parts.length > 1 then
      -- if strings.Contains(result.Location.Path, "layers/") { ... }
      let result :=
        if goContains result.Location.Path "layers/" then
          let loc := goSplit result.Location.Path "!"
          if loc.length > 1 then
            { result with
              Location := { result.Location with Path := loc.getD 1 "" }
              Kind := ContainerLayerResultKind }
          else result
        else result
      -- manifest = parts[1]; result.Kind = proto.ContainerMetdataResultKind
      let manifest := parts.getD 1 ""
      let result := { result with Kind := ContainerMetdataResultKind }
      if manifest ≠ "" then
        { result with Notes := mapSet result.Notes "image" (request.Resource ++ "@" ++ manifest) }
      else
        { result with Notes := mapSet result.Notes "image" request.Resource }
    else
      -- manifest stays "" and neither branch above ran
      { result with Notes := mapSet result.Notes "image" request.Resource }
  | .URLRequestKind =>
    let result := { result with Notes := mapSet result.Notes "url" request.Resource }
    { result with Kind := GenericResultKind }
  | _ => { result with Kind := GenericResultKind }

/-! ## pkg/queue message type and pkg/scanner worker loop

The queue message type `queue.Message[T]` carries `{Priority, Value}`. The
worker loop `Scanner.listen` is embedded as a function from the dequeued
message together with an environment describing the outcome of every
external effect (pattern load, git clone, `absGitDir`, the detector run and
the state of the per-request timeout context at each point where the code
inspects it) to the single `(priority, response)` pair the worker enqueues
on the response queue. -/

/-- Go `queue.Message[T]`. -/
structure QMessage (α : Type) where
  Priority : Int := 0
  Value : α
deriving DecidableEq, Repr

/-- Error codes from the `const` block in `pkg/scanner` (`iota`). -/
def noCode : Int := 0

/-- Go `cloneErrorCode`. -/
def cloneErrorCode : Int := 1

/-- Go `configErrorCode`. -/
def configErrorCode : Int := 2

/-- Go `localScanNotAllowedCode`. -/
def localScanNotAllowedCode : Int := 3

/-- Go `scanErrorCode`. -/
def scanErrorCode : Int := 4

/-- Go `sourceErrorCode`. -/
def sourceErrorCode : Int := 5

/-- Go `timeoutErrorCode`. -/
def timeoutErrorCode : Int := 6

/-- The scanner configuration fields consulted by the worker loop. -/
structure ScannerCfg where
  allowLocal : Bool := false
  maxScanDepth : Int := 0
deriving DecidableEq, Repr

/-- Outcomes of the external effects performed during one iteration of
`Scanner.listen`, made explicit so the loop body is a pure function:
* `patternsErr` — `s.patterns.Gitleaks(ctx)` returned an error;
* `cloneFails` — `s.cloneGitRepo(...)` returned an error (GitRepo, non-local);
* `ctxDoneClone` — the `select` on `ctx.Done()` in the clone error handler
  took the done branch (the per-request deadline had expired);
* `absGitDirFails` — `absGitDir(gitDir)` returned an error;
* `scanFails`/`scanErrMsg` — the dispatched `gitleaks.Scan*` call returned
  an error, and its message;
* `ctxDoneScan` — the `select` on `ctx.Done()` in the scan error handler
  took the done branch;
* `findings` — the findings returned by the dispatched scan;
* `respID` — the fresh `id.ID()` generated for the response. -/
structure DispatchEnv where
  patternsErr : Bool := false
  cloneFails : Bool := false
  ctxDoneClone : Bool := false
  absGitDirFails : Bool := false
  scanFails : Bool := false
  scanErrMsg : String := ""
  ctxDoneScan : Bool := false
  findings : List Finding := []
  respID : String := ""
deriving DecidableEq, Repr

/-- Go `Scanner.respondWithError`: enqueue a response carrying only the error,
at priority `request.Opts.Priority`. -/
def respondWithError (respID : String) (request : Request) (e : PError) :
    Int × Response :=
  (request.Opts.Priority,
   { ID := respID
     Kind := ScanResultsResponseKind
     RequestID := request.ID
     Results := []
     Error := some e })

/-- The tail of `Scanner.listen` after the kind dispatch: inspect the scan
error, mapping a deadline expiry to `timeoutErrorCode` and any other error to
`scanErrorCode` attached to the response that still carries the (partial)
results; enqueue the response at the message's priority. -/
def scanPhase (msg : QMessage Request) (env : DispatchEnv) : Int × Response :=
  let request := msg.Value
  if env.scanFails then
    if env.ctxDoneScan then
      respondWithError env.respID request
        { Code := timeoutErrorCode, Message := "operation timed out" }
    else
      (msg.Priority,
       { ID := env.respID
         Kind := ScanResultsResponseKind
         RequestID := request.ID
         Results := env.findings.map (findingToResult request)
         Error := some { Code := scanErrorCode, Message := env.scanErrMsg } })
  else
    (msg.Priority,
     { ID := env.respID
       Kind := ScanResultsResponseKind
       RequestID := request.ID
       Results := env.findings.map (findingToResult request)
       Error := none })

/-- One iteration of `Scanner.listen` on a dequeued message, following the
source control flow: pattern load, kind dispatch with the GitRepo clone /
local-policy / `absGitDir` checks and the Files local-policy check, then the
shared error mapping and response construction of `scanPhase`. -/
def listen (s : ScannerCfg) (msg : QMessage Request) (env : DispatchEnv) :
    Int × Response :=
  let request := msg.Value
  if env.patternsErr then
    respondWithError env.respID request
      { Code := configErrorCode, Message := "could not load gitleaks config" }
  else
    match request.Kind with
    | .GitRepoRequestKind =>
      if !request.Opts.Local && env.cloneFails then
        if env.ctxDoneClone then
          respondWithError env.respID request
            { Code := cloneErrorCode, Message := "clone operation timed out" }
        else
          respondWithError env.respID request
            { Code := cloneErrorCode, Message := "could not clone git repo" }
      else if request.Opts.Local && !s.allowLocal then
        respondWithError env.respID request
          { Code := localScanNotAllowedCode, Message := "local scans not allowed" }
      else if env.absGitDirFails then
        respondWithError env.respID request
          { Code := sourceErrorCode, Message := "could not determine gitdir" }
      else
        scanPhase msg env
    | .FilesRequestKind =>
      if !s.allowLocal then
        respondWithError env.respID request
          { Code := localScanNotAllowedCode, Message := "local scans not allowed" }
      else
        scanPhase msg env
    | _ => scanPhase msg env

/-- Go `Scanner.Send`: wrap the request in a queue message at priority
`request.Opts.Priority`. -/
def scannerSend (request : Request) : QMessage Request :=
  { Priority := request.Opts.Priority, Value := request }

/-! ## pkg/scanner/gitleaks/config.go: ParseConfig and validate

The betterleaks `config.Config` is external; only the fields inspected by
`validate` are modelled. The TOML decode plus `ViperConfig.Translate` step
is an external call that can return a value, return a Go error, or panic;
its outcome is an explicit input, and the `defer`red `recover` in
`ParseConfig` is embedded by mapping the panic outcome to an error value. -/

/-- An allowlist of the external betterleaks config (fields read by
`validate`). -/
structure GLAllowlist where
  Paths : List String := []
  Regexes : List String := []
  StopWords : List String := []
  Commits : List String := []
deriving DecidableEq, Repr

/-- A detection rule of the external betterleaks config (opaque here). -/
structure GLRule where
  ID : String := ""
deriving DecidableEq, Repr

/-- The external betterleaks `config.Config` (fields read by `validate`). -/
structure GLConfig where
  Rules : List GLRule := []
  Allowlists : List GLAllowlist := []
deriving DecidableEq, Repr

/-- Outcome of `toml.Decode` followed by `vc.Translate()` on a raw config
string: a translated config, a Go error, or a panic raised inside either. -/
inductive TomlOutcome where
  | ok (cfg : GLConfig)
  | goError (msg : String)
  | panicked (msg : String)
deriving DecidableEq, Repr

/-- Go `validate` from `pkg/scanner/gitleaks/config.go`: `none` on success,
`some message` on failure. -/
def validate (cfg : GLConfig) : Option String :=
  if cfg.Rules.length = 0 ∧ cfg.Allowlists.length = 0 then
    some "no rules or allowlists"
  else if cfg.Allowlists.any (fun a =>
      a.Paths.length = 0 ∧ a.Regexes.length = 0 ∧
      a.StopWords.length = 0 ∧ a.Commits.length = 0) then
    some "an allowlist exists that doesn't allow anything"
  else
    none

/-- Go `ParseConfig`: decode and translate (the `outcome` input), recover any
panic into an error, and validate. Total by construction — the panic case
of the external call is turned into an `Except.error`, never propagated. -/
def parseConfig (outcome : TomlOutcome) : Except String GLConfig :=
  match outcome with
  | .panicked msg => .error ("gitleaks config is invalid: " ++ msg)
  | .goError msg => .error msg
  | .ok cfg =>
    match validate cfg with
    | some msg => .error ("invalid config: " ++ msg)
    | none => .ok cfg

/-! ## pkg/scanner/patterns.go: the pattern cache

`Patterns.Gitleaks` is embedded as a pure state transition. The mutable
state is the in-memory config, the content hash and the durable file at
`LocalPath` (its bytes together with its age in seconds, `none` when the
file is missing, so `os.Stat` failing and `os.ReadFile` failing coincide).
The HTTP fetch outcome and the TOML outcome of each raw string are explicit
inputs; SHA-256 is modelled as the identity on contents, since only equality
of hashes is ever used. -/

/-- The configuration fields of `config.Patterns` read by `Gitleaks`. -/
structure PatternsCfg where
  Autofetch : Bool := false
  RefreshAfter : Int := 0
  ExpiredAfter : Int := 0
deriving DecidableEq, Repr

/-- The mutable state of `Patterns` relevant to `Gitleaks`, plus the durable
file at `LocalPath` (contents and age in seconds; `none` when missing). -/
structure PatternsState where
  gitleaksConfig : Option GLConfig := none
  gitleaksConfigHash : String := ""
  localFile : Option (String × Int) := none
deriving DecidableEq, Repr

/-- The distinct error returns of `Patterns.Gitleaks`. -/
inductive PatternsErr where
  | fetchFailed (msg : String)
  | parseFailed (msg : String)
  | writeFailed
  | expired
  | readFailed
deriving DecidableEq, Repr

/-- Go `Patterns.configModTimeExceeds`: `false` when the limit is `0`
(expiration checking disabled); otherwise `true` when the file is missing,
else whether its age exceeds the limit. -/
def configModTimeExceeds (file : Option (String × Int)) (modTimeLimit : Int) : Bool :=
  if modTimeLimit = 0 then false
  else
    match file with
    | some (_, age) => age > modTimeLimit
    | none => true

/-- Go `Patterns.Gitleaks` as a state transition. Inputs beyond the state:
* `fetchResult` — the outcome of `fetchConfig` (HTTP GET of the pattern URL);
* `toml` — the TOML outcome for each raw config string (fed to `parseConfig`);
* `writeOk` — whether `updateLocalConfig` (mkdir + write) succeeds.
Returns the state after the call, the returned config and the returned
error. On a successful write the file contents are replaced and its age
resets to `0`; on a failed write the file is unchanged. -/
def gitleaksLoad (cfg : PatternsCfg) (st : PatternsState)
    (fetchResult : Except String String) (toml : String → TomlOutcome)
    (writeOk : Bool) : PatternsState × Option GLConfig × Option PatternsErr :=
  if cfg.Autofetch && configModTimeExceeds st.localFile cfg.RefreshAfter then
    match fetchResult with
    | .error e => (st, st.gitleaksConfig, some (.fetchFailed e))
    | .ok rawConfig =>
      match parseConfig (toml rawConfig) with
      | .error e => (st, st.gitleaksConfig, some (.parseFailed e))
      | .ok newConfig =>
        let st := { st with gitleaksConfig := some newConfig }
        if writeOk then
          let st := { st with
            localFile := some (rawConfig, 0)
            gitleaksConfigHash := rawConfig }
          (st, st.gitleaksConfig, none)
        else
          (st, st.gitleaksConfig, some .writeFailed)
  else if st.gitleaksConfig = none then
    if configModTimeExceeds st.localFile cfg.ExpiredAfter then
      (st, none, some .expired)
    else
      match st.localFile with
      | none => (st, st.gitleaksConfig, some .readFailed)
      | some (rawConfig, _) =>
        match parseConfig (toml rawConfig) with
        | .error e => (st, st.gitleaksConfig, some (.parseFailed e))
        | .ok newConfig =>
          let st := { st with
            gitleaksConfig := some newConfig
            gitleaksConfigHash := rawConfig }
          (st, st.gitleaksConfig, none)
  else
    (st, st.gitleaksConfig, none)

/-! ## Clone/scan depth policy and git invocations

`cloneGitRepo` (pkg/scanner) builds the `git clone` argument vector;
`newGitCmd` (pkg/scanner/gitleaks) builds the `git log` options used to
walk the history. Both are ported below. The helpers `scanDepth` and
`cloneDepth`, exercised by the repository's own `TestScanner` depth table,
are not present in the source excerpt and are modelled from the spec. -/

/-- Modelled from the spec: `scanDepth(p,m) = (m>0) ? min(p>0?p:m, m) : p`.
The function itself is not under the source excerpt (only its test is). -/
def scanDepth (p m : Int) : Int :=
  if m > 0 then min (if p > 0 then p else m) m else p

/-- Modelled from the spec: `cloneDepth = scanDepth + 1` unless both inputs
are 0. The function itself is not under the source excerpt. -/
def cloneDepth (p m : Int) : Int :=
  if p = 0 ∧ m = 0 then 0 else scanDepth p m + 1

/-- Go `cloneGitRepo` argument construction: the argv passed to `git`
(after the program name), or the error returned when `Opts.Branch` names a
remote ref that does not exist (`remoteRefExists` is the outcome of the
external `git ls-remote` probe). Mirrors the source: proxy config, branch
vs mirror flags, `--shallow-since`, and `--depth <Opts.Depth+1>` appended
only when `Opts.Depth > 0`. -/
def cloneGitRepoArgs (opts : Opts) (remoteRefExists : Bool)
    (cloneURL gitDir : String) : Except String (List String) :=
  let cloneArgs := ["clone"]
  let cloneArgs :=
    if opts.Proxy.length > 0 then
      cloneArgs ++ ["--config", "http.proxy=" ++ opts.Proxy]
    else cloneArgs
  if opts.Branch.length > 0 ∧ ¬remoteRefExists then
    .error ("remote ref does not exist: ref=" ++ opts.Branch)
  else
    let cloneArgs :=
      if opts.Branch.length > 0 then
        cloneArgs ++ ["--bare", "--single-branch", "--branch", opts.Branch]
      else
        cloneArgs ++ ["--mirror", "--no-single-branch"]
    let cloneArgs :=
      if opts.Since.length > 0 then
        cloneArgs ++ ["--shallow-since", opts.Since]
      else cloneArgs
    let cloneArgs :=
      if opts.Depth > 0 then
        -- Add 1 to the clone depth to avoid scanning a grafted commit
        cloneArgs ++ ["--depth", goItoa (opts.Depth + 1)]
      else cloneArgs
    .ok (cloneArgs ++ [cloneURL, gitDir])

/-- Go `gitleaks.GitScanOpts`. -/
structure GitScanOpts where
  Branch : String := ""
  Depth : Int := 0
  Since : String := ""
  Staged : Bool := false
  Unstaged : Bool := false
deriving DecidableEq, Repr

/-- The git command selected by `newGitCmd`: a diff command (staged or not)
or a log command with its option list. -/
inductive GitCmd where
  | diff (staged : Bool)
  | log (logOpts : List String)
deriving DecidableEq, Repr

/-- Go `newGitCmd` from `pkg/scanner/gitleaks`: a diff command when
`Unstaged || Staged`, otherwise a log command whose options include
`--max-count <Depth>` exactly when `Depth > 0` (`shallow` is the commit
list read from the gitdir's `shallow` file). -/
def newGitCmd (opts : GitScanOpts) (shallow : List String) : GitCmd :=
  if opts.Unstaged || opts.Staged then
    .diff opts.Staged
  else
    let logOpts := ["--full-history", "--ignore-missing"]
    let logOpts :=
      if opts.Since.length > 0 then logOpts ++ ["--since", opts.Since]
      else logOpts
    let logOpts :=
      if opts.Depth > 0 then logOpts ++ ["--max-count", goItoa opts.Depth]
      else logOpts
    let logOpts :=
      if opts.Branch.length > 0 then logOpts ++ [opts.Branch]
      else logOpts ++ ["--all"]
    let logOpts :=
      if shallow.length > 0 then logOpts ++ ["--not"] ++ shallow
      else logOpts
    .log logOpts

/-- The `GitScanOpts` that `Scanner.listen` passes to `ScanGit`: the depth
is `request.Opts.Depth`, taken from the request without consulting
`maxScanDepth`. -/
def listenGitScanOpts (request : Request) : GitScanOpts :=
  { Branch := request.Opts.Branch
    Depth := request.Opts.Depth
    Since := request.Opts.Since
    Staged := request.Opts.Staged
    Unstaged := request.Opts.Unstaged }

/-! ## pkg/queue: the bounded priority queue

`PriorityQueue` delegates the ordered storage to a `MessageHeap` driven by
Go's `container/heap`; the `MessageHeap` source file is not part of the
excerpt, so the heap is modelled from the spec: a max-heap keyed by
`Priority` with ties broken arbitrarily, i.e. an extract-max structure over
the multiset of queued messages. The pump goroutine pops under the mutex
and forwards to the synchronous out channel in pop order, so the yield
order is the pop order; `Recv` on an empty heap waits (modelled as a
no-op step). Message values are tagged with `Nat` identifiers. -/

/-- A queued message with a `Nat` identity as its value. -/
abbrev Msg := QMessage Nat

/-- Modelled from the spec: the maximum-priority element the heap hands
out, realised as a fold keeping the first of equal-priority candidates
(ties are broken arbitrarily in the spec). -/
def heapMax : List Msg → Option Msg
  | [] => none
  | x :: xs => some (xs.foldl (fun acc y => if y.Priority > acc.Priority then y else acc) x)

/-- Modelled from the spec: popping the heap removes and returns a
maximum-priority message; `none` on an empty heap. -/
def heapPop (s : List Msg) : Option (Msg × List Msg) :=
  (heapMax s).map (fun m => (m, s.erase m))

/-- The operations interleaved on the queue: a `Send` of a message, or one
pump iteration (pop the heap and hand the message to the out channel). -/
inductive QOp where
  | send (m : Msg)
  | recv
deriving DecidableEq, Repr

/-- Run a sequence of queue operations from a heap state, returning the
final heap contents and the sequence of messages yielded to `Recv`, in
order. A `recv` on an empty heap yields nothing (the pump re-checks and
waits). -/
def runQueue : List QOp → List Msg → List Msg × List Msg
  | [], s => (s, [])
  | .send m :: rest, s => runQueue rest (m :: s)
  | .recv :: rest, s =>
    match heapPop s with
    | none => runQueue rest s
    | some (m, s') =>
      let r := runQueue rest s'
      (r.1, m :: r.2)

/-! ### The concurrency of `Send` (pkg/queue/priorityqueue.go)

`Send` first loops on `maxSize > 0 && Size() >= maxSize` (each `Size()`
read takes and releases `heapMutex`), then separately takes `heapMutex`
and pushes. The two mutex sections make a `Send` two distinct atomic
actions with an interleaving point between them. The model below gives
each sender a program counter over these two actions; `pop` is one pump
iteration. A `check` action is enabled only when the loop condition is
false (a sender whose condition holds stays blocked in the wait loop). -/

/-- Program counter of one `Send` caller. -/
inductive SenderPC where
  | atCheck
  | atInsert
  | done
deriving DecidableEq, Repr

/-- Global state: the heap contents and each sender thread's message and
program counter. -/
structure CState where
  queue : List Msg := []
  threads : List (Msg × SenderPC) := []
deriving DecidableEq, Repr

/-- One atomic action: sender `i` passing the size check, sender `i`
pushing its message, or one pump pop. -/
inductive CLabel where
  | check (i : Nat)
  | insert (i : Nat)
  | pop
deriving DecidableEq, Repr

/-- The interleaving step function; `none` when the action is not enabled
(wrong program counter, blocked size check, or empty-heap pop). -/
def cstep (maxSize : Int) (st : CState) : CLabel → Option CState
  | .check i =>
    match st.threads.get? i with
    | some (m, .atCheck) =>
      if maxSize > 0 ∧ (st.queue.length : Int) ≥ maxSize then none
      else some { st with threads := st.threads.set i (m, .atInsert) }
    | _ => none
  | .insert i =>
    match st.threads.get? i with
    | some (m, .atInsert) =>
      some { queue := m :: st.queue, threads := st.threads.set i (m, .done) }
    | _ => none
  | .pop =>
    match heapPop st.queue with
    | some (_, s') => some { st with queue := s' }
    | none => none

/-- Run a sequence of interleaved actions; `none` if any action is not
enabled. -/
def runC (maxSize : Int) : CState → List CLabel → Option CState
  | st, [] => some st
  | st, l :: rest =>
    match cstep maxSize st l with
    | some st' => runC maxSize st' rest
    | none => none

/-- One serialised (non-interleaved) queue action: a whole `Send` whose
size check and push are not separated by other actions, or one pump pop.
The send is enabled only when the `Send` wait-loop condition is false. -/
inductive SLabel where
  | send (m : Msg)
  | pop
deriving DecidableEq, Repr

/-- Step function for serialised sends. -/
def sstep (maxSize : Int) (q : List Msg) : SLabel → Option (List Msg)
  | .send m =>
    if maxSize > 0 ∧ (q.length : Int) ≥ maxSize then none else some (m :: q)
  | .pop => (heapPop q).map (·.2)

/-- Run a sequence of serialised actions. -/
def runS (maxSize : Int) : List Msg → List SLabel → Option (List Msg)
  | q, [] => some q
  | q, l :: rest =>
    match sstep maxSize q l with
    | some q' => runS maxSize q' rest
    | none => none

/-- Whether the kind dispatch in `Scanner.listen` reaches the shared scan
error handling (`scanPhase`) rather than returning early from the clone,
local-policy or gitdir checks. -/
def dispatchReachesScan (s : ScannerCfg) (request : Request) (env : DispatchEnv) : Bool :=
  match request.Kind with
  | .GitRepoRequestKind =>
    !(!request.Opts.Local && env.cloneFails) &&
    !(request.Opts.Local && !s.allowLocal) &&
    !env.absGitDirFails
  | .FilesRequestKind => s.allowLocal
  | _ => true

/-! ## Helper lemmas -/

/-- The fold inside `heapMax` returns its seed or a list element, and its
result's priority bounds the seed and every list element. -/
theorem heapMax_fold_spec (xs : List Msg) (a : Msg) :
    (xs.foldl (fun acc y => if y.Priority > acc.Priority then y else acc) a = a
      ∨ xs.foldl (fun acc y => if y.Priority > acc.Priority then y else acc) a ∈ xs)
    ∧ a.Priority ≤ (xs.foldl (fun acc y => if y.Priority > acc.Priority then y else acc) a).Priority
    ∧ ∀ x ∈ xs, x.Priority ≤ (xs.foldl (fun acc y => if y.Priority > acc.Priority then y else acc) a).Priority := by
  induction xs generalizing a with
  | nil => simp
  | cons y ys ih =>
    simp only [List.foldl_cons]
    have hba : (if y.Priority > a.Priority then y else a) = y
        ∨ (if y.Priority > a.Priority then y else a) = a := by
      split <;> simp
    have hab : a.Priority ≤ (if y.Priority > a.Priority then y else a).Priority := by
      split
      · exact le_of_lt (by assumption)
      · exact le_refl _
    have hyb : y.Priority ≤ (if y.Priority > a.Priority then y else a).Priority := by
      split
      · exact le_refl _
      · exact le_of_not_lt (by assumption)
    obtain ⟨ihmem, ihle, ihall⟩ := ih (if y.Priority > a.Priority then y else a)
    refine ⟨?_, le_trans hab ihle, ?_⟩
    · rcases ihmem with h | h
      · rw [h]
        rcases hba with h' | h'
        · right; rw [h']; exact List.mem_cons_self _ _
        · left; exact h'
      · right; exact List.mem_cons_of_mem _ h
    · intro x hx
      rcases List.mem_cons.mp hx with rfl | hx
      · exact le_trans hyb ihle
      · exact ihall x hx

/-- The `heapMax` model returns an element of the heap. -/
theorem heapMax_mem {s : List Msg} {m : Msg} (h : heapMax s = some m) : m ∈ s := by
  match s with
  | [] => simp [heapMax] at h
  | x :: xs =>
    simp only [heapMax, Option.some.injEq] at h
    rcases (heapMax_fold_spec xs x).1 with h' | h'
    · rw [← h, h']; exact List.mem_cons_self _ _
    · rw [← h]; exact List.mem_cons_of_mem _ h'

/-- The `heapMax` model returns a maximum-priority element. -/
theorem heapMax_le {s : List Msg} {m : Msg} (h : heapMax s = some m) :
    ∀ x ∈ s, x.Priority ≤ m.Priority := by
  match s with
  | [] => simp [heapMax] at h
  | x :: xs =>
    simp only [heapMax, Option.some.injEq] at h
    intro z hz
    rcases List.mem_cons.mp hz with rfl | hz
    · rw [← h]; exact (heapMax_fold_spec xs z).2.1
    · rw [← h]; exact (heapMax_fold_spec xs x).2.2 z hz

/-- Unfolding `heapPop`. -/
theorem heapPop_eq {s : List Msg} {m : Msg} {s' : List Msg}
    (h : heapPop s = some (m, s')) : heapMax s = some m ∧ s' = s.erase m := by
  unfold heapPop at h
  cases hm : heapMax s with
  | none => rw [hm] at h; simp at h
  | some m' =>
    rw [hm] at h
    simp only [Option.map_some', Option.some.injEq, Prod.mk.injEq] at h
    obtain ⟨h1, h2⟩ := h
    constructor
    · rw [h1]
    · rw [← h2, h1]

/-- A pop hands over a maximum-priority message. -/
theorem heapPop_max {s : List Msg} {m : Msg} {s' : List Msg}
    (h : heapPop s = some (m, s')) : ∀ x ∈ s, x.Priority ≤ m.Priority :=
  heapMax_le (heapPop_eq h).1

/-- Messages other than the popped one survive a pop. -/
theorem heapPop_mem_rest {s : List Msg} {m : Msg} {s' : List Msg} {x : Msg}
    (h : heapPop s = some (m, s')) (hx : x ∈ s) (hne : x ≠ m) : x ∈ s' := by
  rw [(heapPop_eq h).2]
  exact (List.mem_erase_of_ne hne).mpr hx

/-- While a strictly higher-priority message `A` is present alongside `B`,
every prefix of the yielded sequence that contains `B` already contains
`A`: `B` cannot be popped before `A`. -/
theorem runQueue_yield_order (ops : List QOp) :
    ∀ (s : List Msg) (A B : Msg), A ∈ s → B ∈ s → B.Priority < A.Priority →
    ∀ n, B ∈ ((runQueue ops s).2.take n) → A ∈ ((runQueue ops s).2.take n) := by
  induction ops with
  | nil =>
    intro s A B _ _ _ n hmem
    simp [runQueue] at hmem
  | cons op rest ih =>
    intro s A B hA hB hBA n hmem
    cases op with
    | send m =>
      simp only [runQueue] at hmem ⊢
      exact ih (m :: s) A B (List.mem_cons_of_mem _ hA) (List.mem_cons_of_mem _ hB) hBA n hmem
    | recv =>
      cases hpop : heapPop s with
      | none =>
        simp only [runQueue, hpop] at hmem ⊢
        exact ih s A B hA hB hBA n hmem
      | some p =>
        obtain ⟨m, s'⟩ := p
        simp only [runQueue, hpop] at hmem ⊢
        have hmax : ∀ x ∈ s, x.Priority ≤ m.Priority := heapPop_max hpop
        have hmB : m ≠ B := by
          intro hEq
          have hAle : A.Priority ≤ m.Priority := hmax A hA
          rw [hEq] at hAle
          exact absurd (lt_of_lt_of_le hBA hAle) (lt_irrefl _)
        cases n with
        | zero => simp at hmem
        | succ n' =>
          rw [List.take_succ_cons] at hmem ⊢
          by_cases hmA : m = A
          · rw [hmA]; exact List.mem_cons_self _ _
          · have hA' : A ∈ s' := heapPop_mem_rest hpop hA (fun h => hmA h.symm)
            have hB' : B ∈ s' := heapPop_mem_rest hpop hB (fun h => hmB h.symm)
            rcases List.mem_cons.mp hmem with rfl | hmem'
            · exact absurd rfl hmB
            · exact List.mem_cons_of_mem _ (ih s' A B hA' hB' hBA n' hmem')

/-- Erasing an element does not lengthen a list. -/
theorem length_erase_le (a : Msg) (l : List Msg) : (l.erase a).length ≤ l.length :=
  (List.erase_sublist a l).length_le

/-- Serialised sends and pops keep the size within the bound. -/
theorem runS_preserves_bound {maxSize : Int} :
    ∀ (labels : List SLabel) (q q' : List Msg), 0 < maxSize →
    (q.length : Int) ≤ maxSize → runS maxSize q labels = some q' →
    (q'.length : Int) ≤ maxSize := by
  intro labels
  induction labels with
  | nil =>
    intro q q' _ hq hrun
    simp only [runS, Option.some.injEq] at hrun
    rw [← hrun]
    exact hq
  | cons l rest ih =>
    intro q q' hpos hq hrun
    cases l with
    | send m =>
      by_cases hcond : maxSize > 0 ∧ (q.length : Int) ≥ maxSize
      · simp [runS, sstep, hcond] at hrun
      · simp only [runS, sstep, if_neg hcond] at hrun
        have hlt : (q.length : Int) < maxSize := by
          rcases not_and_or.mp hcond with h | h
          · exact absurd hpos h
          · exact lt_of_not_le h
        refine ih (m :: q) q' hpos ?_ hrun
        simp only [List.length_cons]
        push_cast
        omega
    | pop =>
      cases hpop : heapPop q with
      | none => simp [runS, sstep, hpop] at hrun
      | some p =>
        obtain ⟨m, s'⟩ := p
        simp only [runS, sstep, hpop, Option.map_some'] at hrun
        refine ih s' q' hpos ?_ hrun
        have hlen := length_erase_le m q
        rw [(heapPop_eq hpop).2]
        calc ((q.erase m).length : Int) ≤ (q.length : Int) := by exact_mod_cast hlen
          _ ≤ maxSize := hq

/-! ## Claims -/

/-- Claim C2: each pop of the priority queue hands over a message of maximal
priority among those present at that pop instant, and consequently, for any
two messages A and B present in the queue simultaneously with
`A.Priority > B.Priority`, `Recv` yields A before B: every prefix of the
yield sequence containing B already contains A. -/
theorem recv_priority_order :
    (∀ (s : List Msg) (m : Msg) (s' : List Msg), heapPop s = some (m, s') →
      ∀ x ∈ s, x.Priority ≤ m.Priority)
    ∧ (∀ (ops : List QOp) (s : List Msg) (A B : Msg), A ∈ s → B ∈ s →
        B.Priority < A.Priority → ∀ n,
        B ∈ (runQueue ops s).2.take n → A ∈ (runQueue ops s).2.take n) :=
  ⟨fun _ _ _ h => heapPop_max h, runQueue_yield_order⟩

/-- Witness for C2 at concrete inputs: popping `[⟨7,1⟩, ⟨3,0⟩]` bounds both
priorities by 7, and in the two-pop trace the priority-7 message is in every
prefix of the yields that contains the priority-3 one. -/
theorem recv_priority_order_witness :
    (∀ x ∈ ([⟨7, 1⟩, ⟨3, 0⟩] : List Msg), x.Priority ≤ (⟨7, 1⟩ : Msg).Priority)
    ∧ (⟨7, 1⟩ : Msg) ∈ ((runQueue [.recv, .recv] [⟨7, 1⟩, ⟨3, 0⟩]).2.take 2) :=
  ⟨recv_priority_order.1 [⟨7, 1⟩, ⟨3, 0⟩] ⟨7, 1⟩ [⟨3, 0⟩] (by decide),
   recv_priority_order.2 [.recv, .recv] [⟨7, 1⟩, ⟨3, 0⟩] ⟨7, 1⟩ ⟨3, 0⟩
     (by decide) (by decide) (by decide) 2 (by decide)⟩

/-- Counterexample to claim C8 as stated: with `maxSize = 1`, two concurrent
senders may both pass the `Size() >= maxSize` check while the queue holds no
message and then both push, leaving the queue at size 2 > `maxSize` — the
check and the insert of `Send` are separate mutex sections. -/
theorem send_race_exceeds_bound :
    (runC 1
      { queue := []
        threads := [({ Priority := 0, Value := 0 }, .atCheck),
                    ({ Priority := 0, Value := 1 }, .atCheck)] }
      [.check 0, .check 1, .insert 0, .insert 1]).map (fun st => st.queue.length)
      = some 2
    ∧ ¬ ((2 : Int) ≤ (1 : Int)) := by
  constructor
  · decide
  · decide

/-- Claim C8 (amended): when `maxSize > 0`, the bound `size ≤ maxSize`
holds at every observation as long as each `Send`'s size check and insert
are not interleaved with other `Send`s (serialised senders), and a `Send`
whose check observes `size ≥ maxSize` blocks without inserting; the check
and the insert are separate atomic sections, so interleaved concurrent
senders can exceed the bound. -/
theorem send_bound_serialised :
    (∀ (maxSize : Int) (labels : List SLabel) (q q' : List Msg), 0 < maxSize →
      (q.length : Int) ≤ maxSize → runS maxSize q labels = some q' →
      (q'.length : Int) ≤ maxSize)
    ∧ (∀ (maxSize : Int) (st : CState) (i : Nat) (m : Msg),
        st.threads.get? i = some (m, .atCheck) → 0 < maxSize →
        (st.queue.length : Int) ≥ maxSize → cstep maxSize st (.check i) = none) := by
  constructor
  · intro maxSize labels q q' hpos hq hrun
    exact runS_preserves_bound labels q q' hpos hq hrun
  · intro maxSize st i m hthread hpos hsize
    simp only [cstep, hthread]
    exact if_pos ⟨hpos, hsize⟩

/-- Witness for C8 (amended) at concrete inputs: one serialised send into an
empty queue with `maxSize = 1` stays within the bound, and a sender at its
check blocks when the queue already holds `maxSize` messages. -/
theorem send_bound_serialised_witness :
    ((([⟨0, 0⟩] : List Msg).length : Int) ≤ 1)
    ∧ cstep 1 { queue := [⟨0, 0⟩], threads := [(⟨0, 1⟩, .atCheck)] } (.check 0) = none :=
  ⟨send_bound_serialised.1 1 [.send ⟨0, 0⟩] [] [⟨0, 0⟩] (by decide) (by decide) (by decide),
   send_bound_serialised.2 1 { queue := [⟨0, 0⟩], threads := [(⟨0, 1⟩, .atCheck)] } 0 ⟨0, 1⟩
     (by decide) (by decide) (by decide)⟩

/-- Claim C1 (evaluation at the failing input): for a ContainerImage request
and a finding whose path contains `layers/` and a `!`, the code replaces
`Location.Path` by the post-`!` suffix and sets the kind to
`ContainerLayerResultKind` — but then unconditionally reassigns the kind to
`ContainerMetdataResultKind` (whose value is moreover the misspelling
`"ContainerMetdata"`), so the emitted result is never a `ContainerLayer`. -/
theorem containerImage_layer_kind_overwritten :
    (findingToResult
        { ID := "r1", Kind := .ContainerImageRequestKind,
          Resource := "registry.example/app:latest" }
        { File := "images/manifest123/layers/lay1!secret.txt" }).Kind
      = ContainerMetdataResultKind
    ∧ (findingToResult
        { ID := "r1", Kind := .ContainerImageRequestKind,
          Resource := "registry.example/app:latest" }
        { File := "images/manifest123/layers/lay1!secret.txt" }).Kind
      ≠ ContainerLayerResultKind
    ∧ (findingToResult
        { ID := "r1", Kind := .ContainerImageRequestKind,
          Resource := "registry.example/app:latest" }
        { File := "images/manifest123/layers/lay1!secret.txt" }).Location.Path
      = "secret.txt"
    ∧ mapGet (findingToResult
        { ID := "r1", Kind := .ContainerImageRequestKind,
          Resource := "registry.example/app:latest" }
        { File := "images/manifest123/layers/lay1!secret.txt" }).Notes "image"
      = some "registry.example/app:latest@manifest123"
    ∧ goContains "images/manifest123/layers/lay1!secret.txt" "layers/" = true
    ∧ ContainerMetdataResultKind ≠ "ContainerMetadata" := by
  refine ⟨rfl, by decide, rfl, rfl, by decide, by decide⟩

/-- Claim C5 (counterexample as stated): when the per-request deadline
expires while cloning a remote git repository, the emitted response carries
`Error.Code = cloneErrorCode` (1) with message "clone operation timed out",
not `timeoutErrorCode` (6). -/
theorem clone_timeout_maps_to_clone_error :
    (listen { allowLocal := false }
        (scannerSend { ID := "r2", Kind := .GitRepoRequestKind,
                       Resource := "https://example.com/repo.git" })
        { cloneFails := true, ctxDoneClone := true, respID := "resp" }).2.Error
      = some { Code := cloneErrorCode, Message := "clone operation timed out" }
    ∧ cloneErrorCode ≠ timeoutErrorCode
    ∧ (listen { allowLocal := false }
        (scannerSend { ID := "r2", Kind := .GitRepoRequestKind,
                       Resource := "https://example.com/repo.git" })
        { cloneFails := true, ctxDoneClone := true, respID := "resp" }).2.Results
      = [] := by
  refine ⟨rfl, by decide, rfl⟩

/-- Claim C6 (counterexample as stated): a request with a known kind label
but an empty `resource` decodes successfully, so `Resource` is not
guaranteed non-empty after a successful decode. -/
theorem unmarshal_empty_resource_accepted :
    Request.unmarshalJSON {} (some { ID := "x", Kind := "Text", Resource := "" })
      = ({ ID := "x", Kind := .TextRequestKind, Resource := "", Opts := {} }, none)
    ∧ ({ ID := "x", Kind := .TextRequestKind, Resource := "", Opts := {} } : Request).Resource
      = "" := by
  refine ⟨by decide, rfl⟩

/-- Every request kind has a non-empty text label. -/
theorem requestKind_string_ne_empty (k : RequestKind) : k.string ≠ "" := by
  cases k <;> decide

/-- Claim C6 (amended): decoding succeeds exactly when the raw JSON
unmarshals and its kind label is one of the six known labels; an unknown
label (or an unmarshalable payload) produces a decode error and leaves the
receiver unmodified; after a successful decode the `Kind`'s label is
non-empty and the remaining fields are copied verbatim — in particular
`Resource` may be empty. -/
theorem unmarshal_decode_contract :
    (∀ (r : Request) (tmp : RawRequest) (r' : Request),
        Request.unmarshalJSON r (some tmp) = (r', none) →
        requestKindFromName tmp.Kind = some r'.Kind
        ∧ r'.ID = tmp.ID ∧ r'.Resource = tmp.Resource ∧ r'.Opts = tmp.Opts
        ∧ r'.Kind.string ≠ "")
    ∧ (∀ (r : Request) (tmp : RawRequest), requestKindFromName tmp.Kind = none →
        Request.unmarshalJSON r (some tmp)
          = (r, some ("unsupported request kind: kind=" ++ tmp.Kind)))
    ∧ (∀ r : Request,
        Request.unmarshalJSON r none = (r, some "could not unmarshal request")) := by
  refine ⟨?_, ?_, fun _ => rfl⟩
  · intro r tmp r' h
    cases hkind : requestKindFromName tmp.Kind with
    | none => simp [Request.unmarshalJSON, hkind] at h
    | some kind =>
      simp only [Request.unmarshalJSON, hkind, Prod.mk.injEq] at h
      obtain ⟨h1, -⟩ := h
      subst h1
      exact ⟨rfl, rfl, rfl, rfl, requestKind_string_ne_empty kind⟩
  · intro r tmp h
    simp [Request.unmarshalJSON, h]

/-- Witness for C6 (amended) at concrete inputs: a known-label raw request
decodes to the expected record, and an unknown label is rejected leaving
the receiver untouched. -/
theorem unmarshal_decode_contract_witness :
    (requestKindFromName "GitRepo"
        = some ({ ID := "a", Kind := .GitRepoRequestKind, Resource := "u", Opts := {} } : Request).Kind
      ∧ ({ ID := "a", Kind := .GitRepoRequestKind, Resource := "u", Opts := {} } : Request).ID = "a"
      ∧ ({ ID := "a", Kind := .GitRepoRequestKind, Resource := "u", Opts := {} } : Request).Resource = "u"
      ∧ ({ ID := "a", Kind := .GitRepoRequestKind, Resource := "u", Opts := {} } : Request).Opts = {}
      ∧ ({ ID := "a", Kind := .GitRepoRequestKind, Resource := "u", Opts := {} } : Request).Kind.string ≠ "")
    ∧ Request.unmarshalJSON {} (some { ID := "x", Kind := "Mystery", Resource := "http://h" })
      = ({}, some ("unsupported request kind: kind=" ++ "Mystery")) :=
  ⟨unmarshal_decode_contract.1 {} { ID := "a", Kind := "GitRepo", Resource := "u" }
      { ID := "a", Kind := .GitRepoRequestKind, Resource := "u", Opts := {} } (by decide),
   unmarshal_decode_contract.2.1 {} { ID := "x", Kind := "Mystery", Resource := "http://h" }
      (by decide)⟩

/-- Claim C7: every response the worker enqueues — on the success path and
on every error path — carries `RequestID` equal to the originating request's
`ID`, and is enqueued at that request's `Opts.Priority` (the success path
reuses the queue message's priority, which `Scanner.Send` set from
`Opts.Priority`; the error paths read `Opts.Priority` directly). -/
theorem response_correlation (s : ScannerCfg) (request : Request) (env : DispatchEnv) :
    (listen s (scannerSend request) env).2.RequestID = request.ID
    ∧ (listen s (scannerSend request) env).1 = request.Opts.Priority := by
  have hscan : (scanPhase (scannerSend request) env).2.RequestID = request.ID
      ∧ (scanPhase (scannerSend request) env).1 = request.Opts.Priority := by
    unfold scanPhase respondWithError scannerSend
    by_cases h1 : env.scanFails <;> by_cases h2 : env.ctxDoneScan <;> simp [h1, h2]
  unfold listen
  by_cases h0 : env.patternsErr
  · simp [h0, respondWithError, scannerSend]
  · cases hk : (scannerSend request).Value.Kind <;>
      simp only [h0, Bool.false_eq_true, if_false, hk] <;>
      first
        | exact hscan
        | (repeat' split) <;> first | exact hscan | simp [respondWithError, scannerSend]

/-- Claim C5 (amended): a scan error observed with the per-request deadline
expired yields a response with `Error.Code = timeoutErrorCode` (6) and empty
`Results` — except when the failure is the clone of a remote git repository,
where the response instead carries `Error.Code = cloneErrorCode` (1) with
message "clone operation timed out" and empty `Results`. -/
theorem timeout_error_response :
    (∀ (s : ScannerCfg) (msg : QMessage Request) (env : DispatchEnv),
      env.patternsErr = false → dispatchReachesScan s msg.Value env = true →
      env.scanFails = true → env.ctxDoneScan = true →
      (listen s msg env).2.Error
        = some { Code := timeoutErrorCode, Message := "operation timed out" }
      ∧ (listen s msg env).2.Results = [])
    ∧ (∀ (s : ScannerCfg) (msg : QMessage Request) (env : DispatchEnv),
      env.patternsErr = false → msg.Value.Kind = .GitRepoRequestKind →
      msg.Value.Opts.Local = false → env.cloneFails = true → env.ctxDoneClone = true →
      (listen s msg env).2.Error
        = some { Code := cloneErrorCode, Message := "clone operation timed out" }
      ∧ (listen s msg env).2.Results = []) := by
  constructor
  · intro s msg env hpat hreach hscan hctx
    have hphase : (scanPhase msg env).2.Error
        = some { Code := timeoutErrorCode, Message := "operation timed out" }
        ∧ (scanPhase msg env).2.Results = [] := by
      unfold scanPhase respondWithError
      simp [hscan, hctx]
    unfold listen
    unfold dispatchReachesScan at hreach
    cases hk : msg.Value.Kind with
    | GitRepoRequestKind =>
      rw [hk] at hreach
      have hreach' : (!(!msg.Value.Opts.Local && env.cloneFails)
          && !(msg.Value.Opts.Local && !s.allowLocal)
          && !env.absGitDirFails) = true := hreach
      simp only [Bool.and_eq_true, Bool.not_eq_true'] at hreach'
      obtain ⟨⟨hclone, hlocal⟩, habs⟩ := hreach'
      simp only [hpat, Bool.false_eq_true, if_false, hk]
      rw [if_neg (by simp [hclone]), if_neg (by simp [hlocal]), if_neg (by simp [habs])]
      exact hphase
    | FilesRequestKind =>
      rw [hk] at hreach
      have hallow : s.allowLocal = true := hreach
      simp only [hpat, Bool.false_eq_true, if_false, hk]
      rw [if_neg (by simp [hallow])]
      exact hphase
    | ContainerImageRequestKind =>
      simp only [hpat, Bool.false_eq_true, if_false, hk]
      exact hphase
    | JSONDataRequestKind =>
      simp only [hpat, Bool.false_eq_true, if_false, hk]
      exact hphase
    | TextRequestKind =>
      simp only [hpat, Bool.false_eq_true, if_false, hk]
      exact hphase
    | URLRequestKind =>
      simp only [hpat, Bool.false_eq_true, if_false, hk]
      exact hphase
  · intro s msg env hpat hk hlocal hclone hctx
    unfold listen
    simp [hpat, hk, hlocal, hclone, hctx, respondWithError]

/-- Witness for C5 (amended) at concrete inputs: a Text scan whose backend
fails after the deadline expired responds with the timeout code and no
results; a remote GitRepo clone failing after the deadline responds with
the clone error code, the timeout message and no results. -/
theorem timeout_error_response_witness :
    ((listen {} (scannerSend { ID := "t1", Kind := .TextRequestKind, Resource := "x" })
        { scanFails := true, ctxDoneScan := true }).2.Error
      = some { Code := timeoutErrorCode, Message := "operation timed out" }
    ∧ (listen {} (scannerSend { ID := "t1", Kind := .TextRequestKind, Resource := "x" })
        { scanFails := true, ctxDoneScan := true }).2.Results = [])
    ∧ ((listen {} (scannerSend { ID := "g1", Kind := .GitRepoRequestKind, Resource := "u" })
        { cloneFails := true, ctxDoneClone := true }).2.Error
      = some { Code := cloneErrorCode, Message := "clone operation timed out" }
    ∧ (listen {} (scannerSend { ID := "g1", Kind := .GitRepoRequestKind, Resource := "u" })
        { cloneFails := true, ctxDoneClone := true }).2.Results = []) :=
  ⟨timeout_error_response.1 {} (scannerSend { ID := "t1", Kind := .TextRequestKind, Resource := "x" })
      { scanFails := true, ctxDoneScan := true } rfl (by decide) rfl rfl,
   timeout_error_response.2 {} (scannerSend { ID := "g1", Kind := .GitRepoRequestKind, Resource := "u" })
      { cloneFails := true, ctxDoneClone := true } rfl rfl rfl rfl rfl⟩

/-- Claim C3: when an autofetch refresh is taken and the fetched bytes fail
to parse, `Patterns.Gitleaks` leaves the state untouched — the in-memory
config, the hash and the bytes at `LocalPath` are all unchanged (the write
only happens after a successful parse) — and returns the parse error. -/
theorem gitleaks_parse_failure_preserves
    (cfg : PatternsCfg) (st : PatternsState) (toml : String → TomlOutcome)
    (writeOk : Bool) (raw e : String)
    (hauto : cfg.Autofetch = true)
    (hstale : configModTimeExceeds st.localFile cfg.RefreshAfter = true)
    (hparse : parseConfig (toml raw) = .error e) :
    gitleaksLoad cfg st (.ok raw) toml writeOk
      = (st, st.gitleaksConfig, some (.parseFailed e)) := by
  unfold gitleaksLoad
  rw [hauto, hstale]
  simp [hparse]

/-- Witness for C3 at concrete inputs: a stale cache (missing local file),
a fetched string whose TOML translation errors; the state is preserved
verbatim and the parse error surfaces. -/
theorem gitleaks_parse_failure_preserves_witness :
    gitleaksLoad { Autofetch := true, RefreshAfter := 5 } {}
        (.ok "bad") (fun _ => .goError "boom") true
      = ({}, ({} : PatternsState).gitleaksConfig, some (.parseFailed "boom")) :=
  gitleaks_parse_failure_preserves { Autofetch := true, RefreshAfter := 5 } {}
    (fun _ => .goError "boom") true "bad" "boom" rfl (by decide) rfl

/-- Counterexample to claim C4 as stated: with autofetch enabled but
`RefreshAfter = 0` the refresh branch is not taken, and a nil in-memory
config with a missing local file and `ExpiredAfter = 5` still produces the
expired-config error — the expired check never consults `Autofetch`, so
"with autofetch enabled it never returns that error" is false. -/
theorem expired_error_despite_autofetch :
    gitleaksLoad { Autofetch := true, RefreshAfter := 0, ExpiredAfter := 5 }
        { gitleaksConfig := none, gitleaksConfigHash := "", localFile := none }
        (.ok "raw") (fun _ => .goError "e") true
      = ({ gitleaksConfig := none, gitleaksConfigHash := "", localFile := none },
         none, some .expired)
    ∧ ({ Autofetch := true, RefreshAfter := 0, ExpiredAfter := 5 } : PatternsCfg).Autofetch
      = true := by
  refine ⟨by decide, rfl⟩

/-- Claim C4 (amended): when the in-memory config is nil and the autofetch
refresh branch is not taken, `Patterns.Gitleaks` returns the expired-config
error exactly when `configModTimeExceeds` holds for `ExpiredAfter` — that
is, `ExpiredAfter ≠ 0` and the local file is missing or older than
`ExpiredAfter` seconds — regardless of whether autofetch is enabled (the
branch is reachable with autofetch on whenever the refresh staleness check
is false, e.g. `RefreshAfter = 0`). -/
theorem expired_error_condition
    (cfg : PatternsCfg) (st : PatternsState) (fetch : Except String String)
    (toml : String → TomlOutcome) (writeOk : Bool)
    (hnofetch : (cfg.Autofetch && configModTimeExceeds st.localFile cfg.RefreshAfter) = false)
    (hnil : st.gitleaksConfig = none) :
    (gitleaksLoad cfg st fetch toml writeOk).2.2 = some .expired
      ↔ configModTimeExceeds st.localFile cfg.ExpiredAfter = true := by
  unfold gitleaksLoad
  rw [hnofetch]
  simp only [Bool.false_eq_true, if_false, hnil, if_pos rfl]
  cases hexp : configModTimeExceeds st.localFile cfg.ExpiredAfter with
  | true => simp
  | false =>
    simp only [Bool.false_eq_true, if_false]
    cases hfile : st.localFile with
    | none => simp [hnil]
    | some p =>
      obtain ⟨raw, age⟩ := p
      cases hp : parseConfig (toml raw) with
      | error e => simp [hp]
      | ok c => simp [hp]

/-- Witness for C4 (amended) at concrete inputs: autofetch disabled, nil
config, missing local file and `ExpiredAfter = 5` — the load errs with the
expired error and the staleness predicate holds. -/
theorem expired_error_condition_witness :
    (gitleaksLoad { Autofetch := false, RefreshAfter := 0, ExpiredAfter := 5 } {}
        (.ok "x") (fun _ => .goError "e") true).2.2 = some .expired
      ↔ configModTimeExceeds ({} : PatternsState).localFile
          ({ Autofetch := false, RefreshAfter := 0, ExpiredAfter := 5 } : PatternsCfg).ExpiredAfter
        = true :=
  expired_error_condition { Autofetch := false, RefreshAfter := 0, ExpiredAfter := 5 } {}
    (.ok "x") (fun _ => .goError "e") true (by decide) rfl

/-- Passing `validate` (result `none`) forces at least one rule or allowlist, and every
allowlist to have a non-empty dimension. -/
theorem validate_none_inv {cfg : GLConfig} (h : validate cfg = none) :
    (cfg.Rules ≠ [] ∨ cfg.Allowlists ≠ [])
    ∧ ∀ a ∈ cfg.Allowlists,
        (a.Paths ≠ [] ∨ a.Regexes ≠ [] ∨ a.StopWords ≠ [] ∨ a.Commits ≠ []) := by
  unfold validate at h
  split_ifs at h with h1 h2
  constructor
  · rcases not_and_or.mp h1 with hr | ha
    · exact Or.inl (fun he => hr (by rw [he]; rfl))
    · exact Or.inr (fun he => ha (by rw [he]; rfl))
  · intro a ha
    by_contra hcon
    push_neg at hcon
    obtain ⟨hp, hr, hs, hc⟩ := hcon
    exact h2 (by
      simp only [List.any_eq_true, decide_eq_true_eq]
      exact ⟨a, ha, by rw [hp, hr, hs, hc]; exact ⟨rfl, rfl, rfl, rfl⟩⟩)

/-- Claim C10: `ParseConfig` is total — a panic raised by the TOML decode or
translation is recovered into an error value — and it returns a config
without error only when validation passed: the config has at least one rule
or allowlist, and every allowlist allows something (a non-empty paths,
regexes, stopwords or commits list). -/
theorem parseConfig_total_validated :
    (∀ msg, parseConfig (.panicked msg) = .error ("gitleaks config is invalid: " ++ msg))
    ∧ (∀ (outcome : TomlOutcome) (cfg : GLConfig), parseConfig outcome = .ok cfg →
        (cfg.Rules ≠ [] ∨ cfg.Allowlists ≠ [])
        ∧ ∀ a ∈ cfg.Allowlists,
            (a.Paths ≠ [] ∨ a.Regexes ≠ [] ∨ a.StopWords ≠ [] ∨ a.Commits ≠ [])) := by
  refine ⟨fun _ => rfl, ?_⟩
  intro outcome cfg h
  cases outcome with
  | panicked msg => simp [parseConfig] at h
  | goError msg => simp [parseConfig] at h
  | ok c =>
    simp only [parseConfig] at h
    cases hv : validate c with
    | some msg => rw [hv] at h; simp at h
    | none =>
      rw [hv] at h
      simp only [Except.ok.injEq] at h
      rw [← h]
      exact validate_none_inv hv

/-- Witness for C10 at concrete inputs: a panic message is recovered into
the invalid-config error, and a config with one rule parses successfully and
satisfies the validation conditions. -/
theorem parseConfig_total_validated_witness :
    parseConfig (.panicked "boom") = .error ("gitleaks config is invalid: " ++ "boom")
    ∧ ((({ Rules := [{ ID := "rule1" }], Allowlists := [] } : GLConfig).Rules ≠ []
        ∨ ({ Rules := [{ ID := "rule1" }], Allowlists := [] } : GLConfig).Allowlists ≠ [])
      ∧ ∀ a ∈ ({ Rules := [{ ID := "rule1" }], Allowlists := [] } : GLConfig).Allowlists,
          (a.Paths ≠ [] ∨ a.Regexes ≠ [] ∨ a.StopWords ≠ [] ∨ a.Commits ≠ [])) :=
  ⟨parseConfig_total_validated.1 "boom",
   parseConfig_total_validated.2 (.ok { Rules := [{ ID := "rule1" }], Allowlists := [] })
     { Rules := [{ ID := "rule1" }], Allowlists := [] } rfl⟩

/-- Claim C9 (evaluation at the failing input): the spec's depth-policy
helpers satisfy the full test table, but the dispatcher does not apply
them — with `Opts.Depth = 20` and `maxScanDepth = 10` the clone argv carries
`--depth 21` (from `Opts.Depth+1`) and the scan log options carry
`--max-count 20` (from `Opts.Depth`), where the policy prescribes clone
depth 11 and scan depth 10; `maxScanDepth` is never consulted. -/
theorem depth_policy_divergence :
    (scanDepth 0 0 = 0 ∧ cloneDepth 0 0 = 0
      ∧ scanDepth 3 0 = 3 ∧ cloneDepth 3 0 = 4
      ∧ scanDepth 0 10 = 10 ∧ cloneDepth 0 10 = 11
      ∧ scanDepth 8 10 = 8 ∧ cloneDepth 8 10 = 9
      ∧ scanDepth 20 10 = 10 ∧ cloneDepth 20 10 = 11)
    ∧ cloneGitRepoArgs { Depth := 20 } true "https://example.com/repo.git" "clones/x"
      = .ok ["clone", "--mirror", "--no-single-branch", "--depth", "21",
             "https://example.com/repo.git", "clones/x"]
    ∧ newGitCmd (listenGitScanOpts
          { Kind := .GitRepoRequestKind, Resource := "r", Opts := { Depth := 20 } }) []
      = .log ["--full-history", "--ignore-missing", "--max-count", "20", "--all"]
    ∧ goItoa (cloneDepth 20 10) = "11"
    ∧ goItoa (scanDepth 20 10) = "10"
    ∧ ("21" : String) ≠ "11" ∧ ("20" : String) ≠ "10" := by
  exact ⟨by decide, rfl, rfl, rfl, rfl, by decide, by decide⟩

end Leaktk
